import Mathlib

/-!
Shallow embedding of the chunked-message transport core of
`src/app.js`: the fragment reassembler (`onResponse`, lines 155-198),
the message dispatcher (`handleResponse`, lines 200-232) and the
outbound command path (`sendCommand`, lines 142-153).

Modelling conventions:
* bytes are `Nat` (each 0-255 in practice; no arithmetic is done on them);
* the JS sparse array `chunks` is a `List (Option (List Nat))` in which
  `none` models an array hole (an index that was never assigned);
* the platform decode step (`TextDecoder().decode` followed by
  `JSON.parse`, whose failure is caught at line 190) is a parameter of
  type `List Nat → Option Message`: the reassembler's behaviour is
  proved for every decoder;
* a JS exception escaping `onResponse` is modelled by the
  `RawResult.thrown` / `Emit.exception` outcome together with the state
  the module variables hold at the throw point.
-/

namespace PiWifi

/-- One transport notification (`onResponse` lines 156-161): byte 0 is
the chunk index, byte 1 the total chunk count, and the remaining bytes
(`value.slice(2)`) are the payload slice for that index. -/
structure Fragment where
  index : Nat
  total : Nat
  payload : List Nat
deriving DecidableEq

/-- The JS array `chunks` (line 22): a sparse array of byte buffers.
`none` models an array hole. -/
abbrev Chunks := List (Option (List Nat))

/-- The module-level chunking state of app.js (lines 22-23):
`chunks` and `expectedChunks`. -/
structure ReState where
  chunks : Chunks
  expectedChunks : Nat
deriving DecidableEq

/-- JS sparse-array assignment `chunks[chunkIndex] = chunkData`
(line 171): an in-bounds write replaces the slot; an out-of-bounds
write extends the array, leaving holes between the old length and the
written index. -/
def setChunk (cs : Chunks) (i : Nat) (data : List Nat) : Chunks :=
  if i < cs.length then cs.set i (some data)
  else cs ++ List.replicate (i - cs.length) none ++ [some data]

/-- Line 174, `chunks.filter(c => c !== undefined).length`:
`Array.prototype.filter` skips holes, and every populated slot holds a
`Uint8Array` (never `undefined`), so the count is the number of
populated indices. -/
def receivedCount (cs : Chunks) : Nat :=
  (cs.filter Option.isSome).length

/-- The reassembly loop (lines 177-182). `chunks.reduce` skips holes
when sizing the output buffer, but the `for...of` loop yields
`undefined` at every hole and `Uint8Array.prototype.set(undefined, _)`
throws a TypeError; so the concatenation (in index order) succeeds
exactly when the array has no holes, and otherwise the exception
escapes `onResponse`. -/
def concatChunks : Chunks → Option (List Nat)
  | [] => some []
  | none :: _ => none
  | some d :: rest => (concatChunks rest).map (fun t => d ++ t)

/-- Outcome of one `onResponse` call, before the decode step. -/
inductive RawResult where
  | noComplete
  | completed (bytes : List Nat)
  | thrown
deriving DecidableEq

/-- Lines 166-169: when `chunkIndex === 0` the buffer is cleared and
`expectedChunks` is set to the fragment's total; otherwise the previous
buffer is kept. Line 171 then stores the payload at the fragment's
index. -/
def newChunks (s : ReState) (f : Fragment) : Chunks :=
  setChunk (if f.index = 0 then [] else s.chunks) f.index f.payload

/-- Lines 166-169: `expectedChunks` is overwritten only by an index-0
fragment. -/
def newExpected (s : ReState) (f : Fragment) : Nat :=
  if f.index = 0 then f.total else s.expectedChunks

/-- The reassembler step `onResponse` (lines 155-198), up to the decode
step. On completion (line 175) the payloads are concatenated; if the
concatenation throws (hole in the array) the state keeps the values the
module variables held at the throw point, otherwise the decode is
attempted (modelled downstream) and lines 195-196 reset the state to
`⟨[], 0⟩` whether or not `JSON.parse` succeeded. -/
def onResponse (s : ReState) (f : Fragment) : ReState × RawResult :=
  if receivedCount (newChunks s f) = newExpected s f then
    match concatChunks (newChunks s f) with
    | some bytes => (⟨[], 0⟩, RawResult.completed bytes)
    | none => (⟨newChunks s f, newExpected s f⟩, RawResult.thrown)
  else
    (⟨newChunks s f, newExpected s f⟩, RawResult.noComplete)

/-- A decoded JSON message. The dispatcher routes on the `type`
discriminant only (lines 203-231); the variant payload fields
(`networks`, `rssi`, ...) are consumed by UI handlers outside the
protocol core and are not inspected by the routing. -/
structure Message where
  type : String
deriving DecidableEq

/-- Observable outcome of one `onResponse` call including the decode
step: nothing (still buffering), a message handed to `handleResponse`,
a caught JSON decode error (line 191), or an escaping exception. -/
inductive Emit where
  | nothing
  | dispatched (m : Message)
  | decodeError
  | exception
deriving DecidableEq

/-- Lines 187-192: a successful parse is handed to `handleResponse`, a
parse failure is caught and logged. -/
def emitOf (r : Option Message) : Emit :=
  match r with
  | some m => Emit.dispatched m
  | none => Emit.decodeError

/-- One full `onResponse` call with the decode step abstracted as `d`. -/
def onResponseFull (d : List Nat → Option Message) (s : ReState) (f : Fragment) :
    ReState × Emit :=
  match onResponse s f with
  | (s1, RawResult.noComplete) => (s1, Emit.nothing)
  | (s1, RawResult.thrown) => (s1, Emit.exception)
  | (s1, RawResult.completed bytes) => (s1, emitOf (d bytes))

/-- The bytes this step hands to the decode stage, when it completes a
message without throwing. -/
def completedBytes (s : ReState) (f : Fragment) : Option (List Nat) :=
  match (onResponse s f).2 with
  | RawResult.completed bytes => some bytes
  | _ => none

/-- Processing a sequence of arriving fragments, collecting the
observable outcome of each event. -/
def runFragments (d : List Nat → Option Message) (s : ReState) :
    List Fragment → ReState × List Emit
  | [] => (s, [])
  | f :: fs =>
    let r := onResponseFull d s f
    let rest := runFragments d r.1 fs
    (rest.1, r.2 :: rest.2)

/-- The fragments of one logical message whose payload pieces are `ps`,
carrying total `n` and consecutive indices starting at `k`. -/
def fragsFrom (n k : Nat) : List (List Nat) → List Fragment
  | [] => []
  | p :: ps => ⟨k, n, p⟩ :: fragsFrom n (k + 1) ps

/-- The handlers reachable from the `switch` in `handleResponse`
(lines 203-231), identified by the action each case performs. -/
inductive Handler where
  | pongCheck
  | displayNetworks
  | updateSignal
  | displayChannels
  | monitorStartedLog
  | monitorStoppedLog
  | errorLog
deriving DecidableEq

/-- The dispatcher `handleResponse` (lines 200-232): a `switch` on
`response.type` with one handler per recognized type and no default
case, so an unknown type falls through with no handler invoked. The
returned list is the list of handlers invoked by the call. -/
def handleResponse (m : Message) : List Handler :=
  if m.type = "pong" then [Handler.pongCheck]
  else if m.type = "scan_result" then [Handler.displayNetworks]
  else if m.type = "signal" then [Handler.updateSignal]
  else if m.type = "channels" then [Handler.displayChannels]
  else if m.type = "monitor_started" then [Handler.monitorStartedLog]
  else if m.type = "monitor_stopped" then [Handler.monitorStoppedLog]
  else if m.type = "error" then [Handler.errorLog]
  else []

/-- The `type` values the `switch` in `handleResponse` recognizes. -/
def recognizedTypes : List String :=
  ["pong", "scan_result", "signal", "channels",
   "monitor_started", "monitor_stopped", "error"]

/-- An outbound command object (lines 110, 241, 301, 306, 330):
a `cmd` discriminant and an optional `ssid` field. -/
structure Command where
  cmd : String
  ssid : Option String := none
deriving DecidableEq

/-- Observable action of one `sendCommand` call: either the
early-return diagnostic (line 144) or a transport write of the
serialized command (line 152). -/
inductive SendAction where
  | logNotConnected
  | write (data : String)
deriving DecidableEq

/-- The command path `sendCommand` (lines 142-153): when `commandChar`
is null the call logs and returns without writing; otherwise it
serializes the command (`JSON.stringify`, abstracted as `stringify`)
and writes it to the characteristic. `Option Unit` models the
null-or-connected `commandChar` variable. -/
def sendCommand (commandChar : Option Unit) (stringify : Command → String)
    (c : Command) : SendAction :=
  match commandChar with
  | none => SendAction.logNotConnected
  | some _ => SendAction.write (stringify c)

/-- A decoder that always succeeds, used to instantiate theorems. -/
def dAny : List Nat → Option Message := fun _ => some ⟨"pong"⟩

/-- A decoder that always fails, used to instantiate theorems. -/
def dNone : List Nat → Option Message := fun _ => none

/-! Basic computation lemmas about the reassembly buffer. -/

lemma receivedCount_map_some (qs : List (List Nat)) :
    receivedCount (qs.map some) = qs.length := by
  induction qs with
  | nil => rfl
  | cons q qs ih =>
    simp only [receivedCount] at ih
    simp [receivedCount, List.filter_cons, ih]

lemma receivedCount_append (cs ds : Chunks) :
    receivedCount (cs ++ ds) = receivedCount cs + receivedCount ds := by
  simp [receivedCount, List.filter_append]

lemma receivedCount_replicate_none (k : Nat) :
    receivedCount (List.replicate k none) = 0 := by
  simp [receivedCount]

lemma receivedCount_singleton (p : List Nat) :
    receivedCount [some p] = 1 := rfl

lemma concatChunks_map_some (qs : List (List Nat)) :
    concatChunks (qs.map some) = some qs.flatten := by
  induction qs with
  | nil => rfl
  | cons q qs ih => simp [concatChunks, ih]

lemma concatChunks_map_some_append (qs : List (List Nat)) (p : List Nat) :
    concatChunks (qs.map some ++ [some p]) = some (qs.flatten ++ p) := by
  induction qs with
  | nil => simp [concatChunks]
  | cons q qs ih => simp [concatChunks, ih]

lemma setChunk_full (qs : List (List Nat)) (p : List Nat) :
    setChunk (qs.map some) qs.length p = (qs ++ [p]).map some := by
  simp [setChunk]

lemma setChunk_empty (i : Nat) (p : List Nat) :
    setChunk [] i p = List.replicate i none ++ [some p] := by
  simp [setChunk]

/-! Step lemmas characterizing one `onResponse` call in the situations
the reassembly of a well-framed message passes through. -/

/-- An index-0 fragment ignores the previous state entirely. -/
lemma step_zero_state_irrelevant (d : List Nat → Option Message)
    (s t : ReState) (f : Fragment) (h : f.index = 0) :
    onResponseFull d s f = onResponseFull d t f := by
  simp [onResponseFull, onResponse, newChunks, newExpected, h]

/-- An index-0 fragment with total 1 completes immediately. -/
lemma step_zero_single (d : List Nat → Option Message) (s : ReState)
    (p : List Nat) :
    onResponseFull d s ⟨0, 1, p⟩ = (⟨[], 0⟩, emitOf (d p)) := by
  simp [onResponseFull, onResponse, newChunks, newExpected, setChunk,
    receivedCount, List.filter, concatChunks]

/-- An index-0 fragment with total at least 2 resets and buffers. -/
lemma step_zero_incomplete (d : List Nat → Option Message) (s : ReState)
    (p : List Nat) (n : Nat) (hn : 2 ≤ n) :
    onResponseFull d s ⟨0, n, p⟩ = (⟨[some p], n⟩, Emit.nothing) := by
  have hne : ¬ (1 = n) := by omega
  simp [onResponseFull, onResponse, newChunks, newExpected, setChunk_empty,
    receivedCount, List.filter_cons, hne]

/-- A fragment at the next index of a partially filled buffer, not the
last one: the payload is appended and no message is emitted. -/
lemma step_mid (d : List Nat → Option Message) (qs : List (List Nat))
    (n : Nat) (p : List Nat) (hk : qs.length ≠ 0) (hn : qs.length + 1 ≠ n) :
    onResponseFull d ⟨qs.map some, n⟩ ⟨qs.length, n, p⟩
      = (⟨qs.map some ++ [some p], n⟩, Emit.nothing) := by
  simp [onResponseFull, onResponse, newChunks, newExpected, hk, setChunk_full,
    receivedCount_append, receivedCount_map_some, receivedCount_singleton, hn]

/-- The last fragment of a message whose earlier payloads are already
buffered: the message completes with the index-order concatenation and
the state is reset. -/
lemma step_last (d : List Nat → Option Message) (qs : List (List Nat))
    (p : List Nat) (hk : qs.length ≠ 0) :
    onResponseFull d ⟨qs.map some, qs.length + 1⟩ ⟨qs.length, qs.length + 1, p⟩
      = (⟨[], 0⟩, emitOf (d (qs.flatten ++ p))) := by
  simp [onResponseFull, onResponse, newChunks, newExpected, hk, setChunk_full,
    receivedCount_append, receivedCount_map_some, receivedCount_singleton,
    concatChunks_map_some_append]

/-- Unfolding one step of `runFragments`. -/
lemma runFragments_cons (d : List Nat → Option Message) (s : ReState)
    (f : Fragment) (fs : List Fragment) :
    runFragments d s (f :: fs)
      = ((runFragments d (onResponseFull d s f).1 fs).1,
         (onResponseFull d s f).2 :: (runFragments d (onResponseFull d s f).1 fs).2) :=
  rfl

/-- Processing the remaining fragments of a message in index order,
from a state in which the first `qs.length` payload pieces are already
buffered: the run ends in the idle state having emitted nothing until
the final fragment, which emits the decode of the full concatenation. -/
lemma runFragments_tail (d : List Nat → Option Message) :
    ∀ (ps qs : List (List Nat)) (n : Nat), ps ≠ [] → qs.length + ps.length = n →
    runFragments d ⟨qs.map some, n⟩ (fragsFrom n qs.length ps)
      = (⟨[], 0⟩,
         List.replicate (ps.length - 1) Emit.nothing
           ++ [emitOf (d (qs ++ ps).flatten)]) := by
  intro ps
  induction ps with
  | nil => exact fun qs n h _ => absurd rfl h
  | cons p ps ih =>
    intro qs n _ hn
    cases ps with
    | nil =>
      rcases Nat.eq_zero_or_pos qs.length with h0 | hpos
      · obtain rfl : qs = [] := List.length_eq_zero.mp h0
        obtain rfl : n = 1 := by simpa using hn.symm
        rw [fragsFrom, fragsFrom, List.length_nil, runFragments_cons,
          step_zero_single]
        simp [runFragments]
      · obtain rfl : n = qs.length + 1 := by simp at hn; omega
        rw [fragsFrom, fragsFrom, runFragments_cons,
          step_last d qs p (by omega)]
        simp [runFragments]
    | cons p2 ps2 =>
      rcases Nat.eq_zero_or_pos qs.length with h0 | hpos
      · obtain rfl : qs = [] := List.length_eq_zero.mp h0
        have hn2 : 2 ≤ n := by simp at hn; omega
        rw [fragsFrom, List.length_nil, runFragments_cons,
          step_zero_incomplete d _ p n hn2]
        have hrec := ih [p] n (by simp) (by simp at hn ⊢; omega)
        simp only [List.map_cons, List.map_nil, List.length_cons,
          List.length_nil] at hrec
        simp only [hrec]
        simp [List.replicate_succ]
      · have hk : qs.length ≠ 0 := by omega
        have hlt : qs.length + 1 ≠ n := by simp at hn; omega
        rw [fragsFrom, runFragments_cons, step_mid d qs n p hk hlt]
        have hrec := ih (qs ++ [p]) n (by simp) (by simp at hn ⊢; omega)
        simp only [List.map_append, List.map_cons, List.map_nil,
          List.length_append, List.length_cons, List.length_nil] at hrec
        simp only [hrec]
        simp [List.replicate_succ]

/-- For a claim about message completion, the exact pair equation of a
completing step: if the step reports a completed byte sequence, the
step's result is the reset state together with that report. -/
lemma onResponse_completed_state (s : ReState) (f : Fragment) (bytes : List Nat)
    (h : (onResponse s f).2 = RawResult.completed bytes) :
    onResponse s f = (⟨[], 0⟩, RawResult.completed bytes) := by
  by_cases hc : receivedCount (newChunks s f) = newExpected s f
  · rw [onResponse, if_pos hc] at h ⊢
    cases hcc : concatChunks (newChunks s f) with
    | none => rw [hcc] at h; simp at h
    | some b => rw [hcc] at h; simp at h ⊢; exact h
  · rw [onResponse, if_neg hc] at h; simp at h

/-! The claims. -/

/-- C1, counterexample: delivering `{index:1,total:2,payload:[66]}` and
then `{index:0,total:2,payload:[65]}` does not reassemble anything: the
index-0 fragment discards the buffered index-1 payload, no message is
emitted on either event, and the reassembler is left waiting for a new
index-1 fragment. -/
theorem C1_counterexample :
    runFragments dAny ⟨[], 0⟩ [⟨1, 2, [66]⟩, ⟨0, 2, [65]⟩]
      = (⟨[some [65]], 2⟩, [Emit.nothing, Emit.nothing]) := rfl

/-- C1, amended: delivering the index-1 fragment first and then the
index-0 fragment emits no message (the index-0 reset discards the
buffered payload and leaves only the index-0 payload buffered), while
the same two fragments delivered with index 0 first reassemble and emit
the concatenation `A ++ B` ordered by index. -/
theorem C1_amended_order_by_index (d : List Nat → Option Message)
    (A B : List Nat) :
    runFragments d ⟨[], 0⟩ [⟨1, 2, B⟩, ⟨0, 2, A⟩]
        = (⟨[some A], 2⟩, [Emit.nothing, Emit.nothing]) ∧
    runFragments d ⟨[], 0⟩ [⟨0, 2, A⟩, ⟨1, 2, B⟩]
        = (⟨[], 0⟩, [Emit.nothing, emitOf (d (A ++ B))]) := by
  constructor
  · rfl
  · have h2 : onResponseFull d ⟨[some A], 2⟩ ⟨1, 2, B⟩
        = (⟨[], 0⟩, emitOf (d (A ++ B))) := by
      simpa using step_last d [A] B (by simp)
    rw [runFragments_cons, step_zero_incomplete d _ A 2 (by omega)]
    simp [runFragments_cons, runFragments, h2]

/-- C2: a logical message split into payload pieces `ps` with correct
index and total headers, delivered in index order with no duplicates or
losses, is reassembled into exactly the concatenation of the pieces;
every event but the last emits nothing and the last hands the decode of
exactly those bytes to the dispatch stage. -/
theorem C2_round_trip (d : List Nat → Option Message) (ps : List (List Nat))
    (h : ps ≠ []) (s : ReState) :
    runFragments d s (fragsFrom ps.length 0 ps)
      = (⟨[], 0⟩,
         List.replicate (ps.length - 1) Emit.nothing
           ++ [emitOf (d ps.flatten)]) := by
  have htail := runFragments_tail d ps [] ps.length h (by simp)
  simp only [List.map_nil, List.length_nil, List.nil_append] at htail
  cases ps with
  | nil => exact absurd rfl h
  | cons p ps2 =>
    rw [fragsFrom, runFragments_cons,
      step_zero_state_irrelevant d s ⟨[], (p :: ps2).length⟩ _ rfl]
    rw [fragsFrom, runFragments_cons] at htail
    exact htail

/-- C2, witness: the two-piece message `[65], [66]` reassembles to
`[65, 66]` and its decode is dispatched on the final event. -/
theorem C2_round_trip_witness :
    ([[65], [66]] : List (List Nat)) ≠ [] ∧
    runFragments dAny ⟨[], 0⟩ (fragsFrom 2 0 [[65], [66]])
      = (⟨[], 0⟩, [Emit.nothing, Emit.dispatched ⟨"pong"⟩]) :=
  ⟨by decide, C2_round_trip dAny [[65], [66]] (by decide) ⟨[], 0⟩⟩

/-- C3: the claim that no exception escapes on out-of-range headers
fails on the code. After `{index:0,total:2}`, a fragment
`{index:5,total:2}` makes the populated count reach `expectedChunks`
while the buffer has holes; the reassembly loop then throws (modelled
by `Emit.exception`), escaping `onResponse` with the buffer not reset. -/
theorem C3_exception_escapes (d : List Nat → Option Message) :
    runFragments d ⟨[], 0⟩ [⟨0, 2, [65]⟩, ⟨5, 2, [66]⟩]
      = (⟨[some [65], none, none, none, none, some [66]], 2⟩,
         [Emit.nothing, Emit.exception]) := rfl

/-- C4: an index-0 fragment unconditionally discards any in-progress
buffer: whatever the prior state, the result is as if the reassembler
were idle — the new buffer holds only the new payload, the expected
count is the new total, and nothing is emitted for the prior message
(with total 1 the new message itself completes at once). -/
theorem C4_abandonment (d : List Nat → Option Message) (s : ReState)
    (f : Fragment) (h : f.index = 0) :
    onResponseFull d s f
      = if f.total = 1 then (⟨[], 0⟩, emitOf (d f.payload))
        else (⟨[some f.payload], f.total⟩, Emit.nothing) := by
  obtain ⟨i, n, p⟩ := f
  dsimp only at h ⊢
  subst h
  by_cases hn : n = 1
  · subst hn
    simp [step_zero_single]
  · rcases Nat.eq_zero_or_pos n with h0 | hpos
    · subst h0
      simp [onResponseFull, onResponse, newChunks, newExpected, setChunk,
        receivedCount, List.filter_cons]
    · have h2 : 2 ≤ n := by omega
      simp [step_zero_incomplete d s p n h2, hn]

/-- C4, witness: with an incomplete two-of-three message pending, an
index-0 fragment with total 2 discards it and buffers only itself. -/
theorem C4_abandonment_witness :
    onResponseFull dAny ⟨[some [1]], 3⟩ ⟨0, 2, [7]⟩
      = (⟨[some [7]], 2⟩, Emit.nothing) :=
  C4_abandonment dAny ⟨[some [1]], 3⟩ ⟨0, 2, [7]⟩ rfl

/-- C5: delivering `{index:0,total:2}` twice before index 1 arrives
does not complete prematurely (both events emit nothing), keeps the
last-written payload at index 0, and the eventual completion carries
the last payload once — never a doubled buffer. -/
theorem C5_duplicate_index0 (d : List Nat → Option Message) (s : ReState)
    (p1 p2 q : List Nat) :
    runFragments d s [⟨0, 2, p1⟩, ⟨0, 2, p2⟩, ⟨1, 2, q⟩]
      = (⟨[], 0⟩, [Emit.nothing, Emit.nothing, emitOf (d (p2 ++ q))]) := by
  have h3 : onResponseFull d ⟨[some p2], 2⟩ ⟨1, 2, q⟩
      = (⟨[], 0⟩, emitOf (d (p2 ++ q))) := by
    simpa using step_last d [p2] q (by simp)
  rw [runFragments_cons, step_zero_incomplete d s p1 2 (by omega)]
  simp [runFragments_cons, runFragments,
    step_zero_incomplete d _ p2 2 (by omega), h3]

/-- C6: a fragment with total 1 (hence, by the header invariant
`index < total`, index 0) completes immediately from any state, and the
message handed to the decode stage is exactly the fragment's payload. -/
theorem C6_single_fragment (d : List Nat → Option Message) (s : ReState)
    (f : Fragment) (h1 : f.total = 1) (h2 : f.index < f.total) :
    onResponseFull d s f = (⟨[], 0⟩, emitOf (d f.payload)) := by
  obtain ⟨i, n, p⟩ := f
  dsimp only at h1 h2 ⊢
  subst h1
  obtain rfl : i = 0 := by omega
  exact step_zero_single d s p

/-- C6, witness: a single-fragment message completes at once and its
decoded form is dispatched. -/
theorem C6_single_fragment_witness :
    onResponseFull dAny ⟨[], 0⟩ ⟨0, 1, [65]⟩
      = (⟨[], 0⟩, Emit.dispatched ⟨"pong"⟩) :=
  C6_single_fragment dAny ⟨[], 0⟩ ⟨0, 1, [65]⟩ rfl (by decide)

/-- C7: whenever a step completes a reassembly, the state is reset to
the empty buffer with expected count 0 regardless of the decoder; the
emission is exactly the decode outcome, and on decode failure it is the
reported decode error — no message is dispatched. -/
theorem C7_reset_after_completion (d : List Nat → Option Message)
    (s : ReState) (f : Fragment) (bytes : List Nat)
    (h : completedBytes s f = some bytes) :
    (onResponseFull d s f).1 = ⟨[], 0⟩ ∧
    (onResponseFull d s f).2 = emitOf (d bytes) ∧
    (d bytes = none → (onResponseFull d s f).2 = Emit.decodeError) := by
  have h2 : (onResponse s f).2 = RawResult.completed bytes := by
    unfold completedBytes at h
    split at h
    next b heq => simp at h; rw [heq, h]
    next heq => simp at h
  have h1 := onResponse_completed_state s f bytes h2
  refine ⟨?_, ?_, ?_⟩
  · simp [onResponseFull, h1]
  · simp [onResponseFull, h1]
  · intro hd; simp [onResponseFull, h1, emitOf, hd]

/-- C7, witness: a completing single-fragment step under the always
failing decoder resets the state and reports a decode error. -/
theorem C7_reset_after_completion_witness :
    (onResponseFull dNone ⟨[], 0⟩ ⟨0, 1, [123]⟩).1 = (⟨[], 0⟩ : ReState) ∧
    (onResponseFull dNone ⟨[], 0⟩ ⟨0, 1, [123]⟩).2 = emitOf (dNone [123]) ∧
    (dNone [123] = none →
      (onResponseFull dNone ⟨[], 0⟩ ⟨0, 1, [123]⟩).2 = Emit.decodeError) :=
  C7_reset_after_completion dNone ⟨[], 0⟩ ⟨0, 1, [123]⟩ [123] (by decide)

/-- C8: dispatching a well-formed decoded message whose type is not a
recognized variant invokes no handler (and, the routing being a total
function, raises no exception); a recognized type invokes exactly one
handler. -/
theorem C8_dispatch_by_type (m : Message) :
    (m.type ∉ recognizedTypes → handleResponse m = []) ∧
    (m.type ∈ recognizedTypes → (handleResponse m).length = 1) := by
  constructor
  · intro h
    simp [recognizedTypes] at h
    obtain ⟨h1, h2, h3, h4, h5, h6, h7⟩ := h
    simp [handleResponse, h1, h2, h3, h4, h5, h6, h7]
  · intro h
    simp [recognizedTypes] at h
    rcases h with h | h | h | h | h | h | h <;> simp [handleResponse, h]

/-- C8, witness: the unknown type invokes no handler and the recognized
type `pong` invokes exactly one. -/
theorem C8_dispatch_by_type_witness :
    handleResponse ⟨"unsupported_x"⟩ = [] ∧
    (handleResponse ⟨"pong"⟩).length = 1 :=
  ⟨(C8_dispatch_by_type ⟨"unsupported_x"⟩).1 (by decide),
   (C8_dispatch_by_type ⟨"pong"⟩).2 (by decide)⟩

/-- C9: calling `sendCommand` while `commandChar` is null logs the
not-connected diagnostic and returns without performing any transport
write, for every command and serializer. -/
theorem C9_send_requires_connection (stringify : Command → String)
    (c : Command) :
    sendCommand none stringify c = SendAction.logNotConnected := rfl

/-- C10: a fragment with a non-zero index arriving while the
reassembler is idle never completes a message and emits nothing: the
populated count becomes 1 while the expected count stays 0. -/
theorem C10_nonzero_fragment_idle (d : List Nat → Option Message)
    (f : Fragment) (h : f.index ≠ 0) :
    onResponseFull d ⟨[], 0⟩ f
      = (⟨List.replicate f.index none ++ [some f.payload], 0⟩, Emit.nothing) := by
  obtain ⟨i, n, p⟩ := f
  dsimp only at h ⊢
  simp [onResponseFull, onResponse, newChunks, newExpected, h, setChunk_empty,
    receivedCount_append, receivedCount_replicate_none, receivedCount_singleton]

/-- C10, witness: an index-3 fragment into the idle state buffers with
holes and emits nothing. -/
theorem C10_nonzero_fragment_idle_witness :
    onResponseFull dAny ⟨[], 0⟩ ⟨3, 2, [65]⟩
      = (⟨[none, none, none, some [65]], 0⟩, Emit.nothing) :=
  C10_nonzero_fragment_idle dAny ⟨3, 2, [65]⟩ (by decide)

end PiWifi
